import Mathlib

/-!
# Verification of the FuelEU compliance engine (`src/backend.js`)

A shallow embedding of the computation/ledger core of the repository:
the route validator, the Compliance Balance (CB) formula evaluator, the
banking ledger and the greedy pooling allocator.  JavaScript `number`
arithmetic is modelled as exact rational arithmetic over `ℚ`; repository
interfaces (`IComplianceRepository`, `IBankRepository`, `IPoolRepository`)
whose implementations are not part of the source are modelled from the
spec as explicit in-memory state passed through each use case.
-/

/-- `enum VesselType` of `src/backend.js`. -/
inductive VesselType where
  | container
  | bulkCarrier
  | tanker
  | roro
deriving DecidableEq, Repr

/-- `enum FuelType` of `src/backend.js`. -/
inductive FuelType where
  | hfo
  | lng
  | mgo
deriving DecidableEq, Repr

/-- Errors thrown by the core: `ValidationError` (a subclass of `Error`
carrying a message) and plain `Error` (used for not-found conditions). -/
inductive DomainError where
  | validation (message : String)
  | plain (message : String)
deriving DecidableEq, Repr

/-- `interface RouteProps` of `src/backend.js`. -/
structure RouteProps where
  id : String
  routeId : String
  vesselType : VesselType
  fuelType : FuelType
  year : ℤ
  ghgIntensity : ℚ
  fuelConsumption : ℚ
  distance : ℚ
  isBaseline : Bool
deriving DecidableEq, Repr

/-- `class Route` of `src/backend.js`: an immutable record whose private
constructor runs `validate`. -/
structure Route where
  id : String
  routeId : String
  vesselType : VesselType
  fuelType : FuelType
  year : ℤ
  ghgIntensity : ℚ
  fuelConsumption : ℚ
  distance : ℚ
  isBaseline : Bool
deriving DecidableEq, Repr

namespace Route

/-- `Route.validate` composed with the private constructor: the three checks
of `src/backend.js` lines 55–65, in source order, first failing check wins. -/
def create (props : RouteProps) : Except DomainError Route :=
  if props.ghgIntensity ≤ 0 then
    .error (.validation "GHG intensity must be positive")
  else if props.fuelConsumption ≤ 0 then
    .error (.validation "Fuel consumption must be positive")
  else if props.year < 2024 then
    .error (.validation "Year must be 2024 or later")
  else
    .ok ⟨props.id, props.routeId, props.vesselType, props.fuelType, props.year,
      props.ghgIntensity, props.fuelConsumption, props.distance, props.isBaseline⟩

/-- `Route.calculateEnergyInScope`: energy content 41000 MJ per tonne of fuel. -/
def calculateEnergyInScope (r : Route) : ℚ :=
  r.fuelConsumption * 41000

/-- Emission factor table of `Route.calculateTotalEmissions` (tCO2/tonne fuel). -/
def emissionFactor : FuelType → ℚ
  | .hfo => 3.114
  | .lng => 2.750
  | .mgo => 3.206

/-- `Route.calculateTotalEmissions`. -/
def calculateTotalEmissions (r : Route) : ℚ :=
  r.fuelConsumption * emissionFactor r.fuelType

end Route

/-- `class ComplianceBalance` of `src/backend.js`. -/
structure ComplianceBalance where
  value : ℚ
  year : ℤ
  shipId : String
deriving DecidableEq, Repr

/-- `interface ComplianceRecord` of `src/backend.js` (the `createdAt`
timestamp is real time and is not modelled). -/
structure ComplianceRecord where
  id : String
  shipId : String
  year : ℤ
  cbGco2eq : ℚ
  routeId : Option String
deriving DecidableEq, Repr

/-- A persisted bank entry, as created through `IBankRepository.create`
(`shipId`, `year`, `amountGco2eq`). -/
structure BankEntry where
  shipId : String
  year : ℤ
  amountGco2eq : ℚ
deriving DecidableEq, Repr

/-- Modelled from the spec: a record of an `applyBanked` action. The spec's
`BankEntry` carries an applied portion that apply actions increase; the
repository implementation is not in the source, so the cumulative applied
total is modelled as a log of applied amounts per (ship, year). -/
structure AppliedEntry where
  shipId : String
  year : ℤ
  amountGco2eq : ℚ
deriving DecidableEq, Repr

/-- The persistence state behind `IComplianceRepository` and
`IBankRepository`, modelled as in-memory lists. -/
structure LedgerState where
  records : List ComplianceRecord
  bankEntries : List BankEntry
  appliedEntries : List AppliedEntry
deriving DecidableEq, Repr

namespace LedgerState

/-- Modelled from the spec: `IComplianceRepository.findByShipAndYear`
(the repository implementation is not in the source; the spec keeps at most
one record per (ship, year), so the first match is returned). -/
def findByShipAndYear (st : LedgerState) (shipId : String) (year : ℤ) :
    Option ComplianceRecord :=
  st.records.find? (fun r => r.shipId == shipId && r.year == year)

/-- Modelled from the spec: `IBankRepository.getTotalBanked`, the sum of the
banked amounts recorded for (ship, year). -/
def getTotalBanked (st : LedgerState) (shipId : String) (year : ℤ) : ℚ :=
  ((st.bankEntries.filter (fun e => e.shipId == shipId && e.year == year)).map
    (·.amountGco2eq)).sum

/-- Modelled from the spec: the cumulative applied portion for (ship, year). -/
def getTotalApplied (st : LedgerState) (shipId : String) (year : ℤ) : ℚ :=
  ((st.appliedEntries.filter (fun e => e.shipId == shipId && e.year == year)).map
    (·.amountGco2eq)).sum

/-- Modelled from the spec: the cumulative unapplied banked total for
(ship, year) — banked minus applied. -/
def unappliedBanked (st : LedgerState) (shipId : String) (year : ℤ) : ℚ :=
  st.getTotalBanked shipId year - st.getTotalApplied shipId year

end LedgerState

-- ----- ComputeCBUseCase -----

/-- `interface ComputeCBCommand`. -/
structure ComputeCBCommand where
  routeId : String
  shipId : String
  year : ℤ
deriving DecidableEq, Repr

namespace ComputeCBUseCase

/-- `ComputeCBUseCase.getTargetIntensity`: baseline 91.16 gCO2e/MJ with the
year-indexed reduction table `{2025: 2, 2030: 6, 2035: 14.5, 2040: 31,
2045: 62, 2050: 80}`; `reductionRates[year] || 2` defaults any other year
to the 2% reduction. -/
def getTargetIntensity (year : ℤ) : ℚ :=
  let baseline : ℚ := 91.16
  let reductionPercent : ℚ :=
    if year = 2025 then 2
    else if year = 2030 then 6
    else if year = 2035 then 14.5
    else if year = 2040 then 31
    else if year = 2045 then 62
    else if year = 2050 then 80
    else 2
  baseline * (1 - reductionPercent / 100)

/-- `IRouteRepository.findByRouteId`, over the route store passed as a list. -/
def findByRouteId (routes : List Route) (routeId : String) : Option Route :=
  routes.find? (fun r => r.routeId == routeId)

/-- The CB formula of `ComputeCBUseCase.execute`:
`CB = (target − actual intensity) × energyInScope / 10^6`. -/
def cbValueOf (route : Route) (year : ℤ) : ℚ :=
  (getTargetIntensity year - route.ghgIntensity) * route.calculateEnergyInScope
    / 1000000

/-- `ComputeCBUseCase.execute`: resolve the route, compute the CB, persist a
ComplianceRecord (the repository's `save` assigns the id; modelled as an
append with an empty id) and return the ComplianceBalance. -/
def execute (routes : List Route) (command : ComputeCBCommand)
    (st : LedgerState) : Except DomainError ComplianceBalance × LedgerState :=
  match findByRouteId routes command.routeId with
  | none => (.error (.plain "Route not found"), st)
  | some route =>
      let cbValue := cbValueOf route command.year
      (.ok ⟨cbValue, command.year, command.shipId⟩,
        { st with records := st.records ++
            [⟨"", command.shipId, command.year, cbValue, some route.routeId⟩] })

end ComputeCBUseCase

-- ----- BankSurplusUseCase -----

/-- `interface BankSurplusCommand`. -/
structure BankSurplusCommand where
  shipId : String
  year : ℤ
  amount : ℚ
deriving DecidableEq, Repr

namespace BankSurplusUseCase

/-- `BankSurplusUseCase.execute` (`src/backend.js` lines 299–322): find the
compliance record, fail on a missing record, a non-positive CB, or an amount
above the record's CB — in that order — else create one bank entry for the
full requested amount. -/
def execute (command : BankSurplusCommand) (st : LedgerState) :
    Except DomainError Unit × LedgerState :=
  match st.findByShipAndYear command.shipId command.year with
  | none => (.error (.plain "Compliance balance not found"), st)
  | some cbRecord =>
      if cbRecord.cbGco2eq ≤ 0 then
        (.error (.validation "Cannot bank negative or zero CB"), st)
      else if command.amount > cbRecord.cbGco2eq then
        (.error (.validation "Amount exceeds available CB"), st)
      else
        (.ok (), { st with bankEntries := st.bankEntries ++
            [⟨command.shipId, command.year, command.amount⟩] })

end BankSurplusUseCase

/-- Modelled from the spec: `applyBanked(ship, year, amount)` — the
`IBankRepository.applyBanked` port and the `/banking/apply` endpoint have no
executable use case in the source, so the apply rule follows §4.3 of the
spec: fail with `NoBankedSurplus` if the cumulative unapplied banked total is
≤ 0, fail with `AmountExceedsBanked` if `amount` exceeds that unapplied
total, otherwise increase the applied portion by `amount`. -/
def applyBanked (command : BankSurplusCommand) (st : LedgerState) :
    Except DomainError Unit × LedgerState :=
  let unapplied := st.unappliedBanked command.shipId command.year
  if unapplied ≤ 0 then
    (.error (.validation "No banked surplus"), st)
  else if command.amount > unapplied then
    (.error (.validation "Amount exceeds banked"), st)
  else
    (.ok (), { st with appliedEntries := st.appliedEntries ++
        [⟨command.shipId, command.year, command.amount⟩] })

-- ----- CreatePoolUseCase -----

/-- `interface PoolMemberInput`. -/
structure PoolMemberInput where
  shipId : String
  cbBefore : ℚ
deriving DecidableEq, Repr

/-- `interface PoolAllocation`. -/
structure PoolAllocation where
  shipId : String
  cbBefore : ℚ
  cbAfter : ℚ
deriving DecidableEq, Repr

/-- `interface CreatePoolCommand`. -/
structure CreatePoolCommand where
  year : ℤ
  members : List PoolMemberInput
deriving DecidableEq, Repr

/-- A persisted pool, as created through `IPoolRepository.create`. -/
structure PoolRecord where
  poolId : String
  year : ℤ
  members : List PoolAllocation
deriving DecidableEq, Repr

/-- The persistence state behind `IPoolRepository`. -/
structure PoolState where
  pools : List PoolRecord
deriving DecidableEq, Repr

/-- Modelled from the spec: `IPoolRepository.create` — the pool store
implementation is not in the source; it persists the pool atomically and
returns a fresh pool id. -/
def PoolState.create (st : PoolState) (year : ℤ)
    (members : List PoolAllocation) : String × PoolState :=
  let poolId := "P" ++ toString (st.pools.length + 1)
  (poolId, ⟨st.pools ++ [⟨poolId, year, members⟩]⟩)

namespace CreatePoolUseCase

/-- The fallback element for out-of-range index reads; all reads the
algorithm performs are in range. -/
def defA : PoolAllocation := ⟨"", 0, 0⟩

/-- The `cbAfter` field at index `k` of the working list (0 out of range). -/
def cbAt (l : List PoolAllocation) (k : ℕ) : ℚ :=
  (l.getD k defA).cbAfter

/-- The transfer step of `greedyAllocate` (`src/backend.js` lines 398–404):
`transfer = min(allocations[i].cbAfter, abs(allocations[j].cbAfter))`,
then `allocations[i].cbAfter -= transfer; allocations[j].cbAfter += transfer`
as sequential in-place updates. -/
def applyTransfer (l : List PoolAllocation) (i j : ℕ) : List PoolAllocation :=
  let transfer := min (cbAt l i) |cbAt l j|
  let l₁ := l.set i { l.getD i defA with cbAfter := cbAt l i - transfer }
  l₁.set j { l₁.getD j defA with cbAfter := cbAt l₁ j + transfer }

/-- The inner loop of `greedyAllocate`: scan the index list `js`
(`j = allocations.length − 1` down to `0`); on each index currently in
deficit perform the transfer, and break once `allocations[i].cbAfter`
reaches exactly 0. -/
def innerLoop (i : ℕ) (l : List PoolAllocation) : List ℕ → List PoolAllocation
  | [] => l
  | j :: js =>
      if cbAt l j < 0 then
        let l' := applyTransfer l i j
        if cbAt l' i = 0 then l' else innerLoop i l' js
      else innerLoop i l js

/-- One iteration of the outer loop of `greedyAllocate`: if index `i` is
currently in surplus, run the backward scan over all indices. -/
def outerStep (l : List PoolAllocation) (i : ℕ) : List PoolAllocation :=
  if cbAt l i > 0 then innerLoop i l (List.range l.length).reverse else l

/-- Stable insertion into a descending-sorted list: the inserted member goes
before the first element whose `cbBefore` is not larger, so later-input
elements with an equal key stay behind it. -/
def insertDesc (m : PoolMemberInput) : List PoolMemberInput → List PoolMemberInput
  | [] => [m]
  | x :: xs =>
      if x.cbBefore ≤ m.cbBefore then m :: x :: xs else x :: insertDesc m xs

/-- `[...members].sort((a, b) => b.cbBefore - a.cbBefore)`: JavaScript
`Array.prototype.sort` is stable (ES2019) and this comparator orders by
`cbBefore` descending, so the result is the unique stable descending
reordering, realised here as a stable insertion sort. -/
def sortDesc : List PoolMemberInput → List PoolMemberInput
  | [] => []
  | x :: xs => insertDesc x (sortDesc xs)

/-- `CreatePoolUseCase.greedyAllocate` (`src/backend.js` lines 381–413). -/
def greedyAllocate (members : List PoolMemberInput) : List PoolAllocation :=
  let sorted := sortDesc members
  let allocations := sorted.map fun m => ⟨m.shipId, m.cbBefore, m.cbBefore⟩
  (List.range allocations.length).foldl outerStep allocations

/-- The `originalMap.get(alloc.shipId)` lookup of `validatePoolingRules`:
a JavaScript `Map` built from entries keeps the last entry per key; the
non-null assertion cannot fail on allocator output, and a missing key is
modelled by the fallback 0. -/
def originalCbBefore (original : List PoolMemberInput) (shipId : String) : ℚ :=
  (((original.filter (fun m => m.shipId == shipId)).getLast?).map
    (·.cbBefore)).getD 0

/-- `CreatePoolUseCase.validatePoolingRules` (`src/backend.js` lines
415–439): a deficit ship cannot exit worse, a surplus ship cannot exit
negative. -/
def validatePoolingRules (original : List PoolMemberInput) :
    List PoolAllocation → Except DomainError Unit
  | [] => .ok ()
  | alloc :: rest =>
      let before := originalCbBefore original alloc.shipId
      let after := alloc.cbAfter
      if before < 0 ∧ after < before then
        .error (.validation ("Ship " ++ alloc.shipId ++ " would exit worse ("
          ++ toString after ++ " < " ++ toString before ++ ")"))
      else if before > 0 ∧ after < 0 then
        .error (.validation ("Ship " ++ alloc.shipId ++ " would exit negative ("
          ++ toString after ++ ")"))
      else validatePoolingRules original rest

/-- `CreatePoolUseCase.execute` (`src/backend.js` lines 350–379): minimum
member count, non-negative total, greedy allocation, pooling-rule check,
then atomic persistence through the pool repository. -/
def execute (command : CreatePoolCommand) (st : PoolState) :
    Except DomainError (String × List PoolAllocation) × PoolState :=
  if command.members.length < 2 then
    (.error (.validation "Pool must have at least 2 members"), st)
  else
    let totalCB := command.members.foldl (fun sum m => sum + m.cbBefore) 0
    if totalCB < 0 then
      (.error (.validation "Pool total CB must be non-negative"), st)
    else
      let allocations := greedyAllocate command.members
      match validatePoolingRules command.members allocations with
      | .error e => (.error e, st)
      | .ok _ =>
          let (poolId, st') := st.create command.year allocations
          (.ok (poolId, allocations), st')

end CreatePoolUseCase

-- ----- Theorems: CB formula evaluator -----

/-- C4: the target intensity equals 91.16 × (1 − reduction/100) with the
reduction from the table {2025: 2, 2030: 6, 2035: 14.5, 2040: 31, 2045: 62,
2050: 80} and a 2% default for absent years; hence 2025 → 89.3368,
2030 → 85.6904, 2035 → 77.9418, 2040 → 62.9004, 2045 → 34.6408,
2050 → 18.2320, and every unlisted year → 89.3368. -/
theorem getTargetIntensity_table (y : ℤ)
    (hy : y ∉ ([2025, 2030, 2035, 2040, 2045, 2050] : List ℤ)) :
    ComputeCBUseCase.getTargetIntensity 2025 = 89.3368
  ∧ ComputeCBUseCase.getTargetIntensity 2030 = 85.6904
  ∧ ComputeCBUseCase.getTargetIntensity 2035 = 77.9418
  ∧ ComputeCBUseCase.getTargetIntensity 2040 = 62.9004
  ∧ ComputeCBUseCase.getTargetIntensity 2045 = 34.6408
  ∧ ComputeCBUseCase.getTargetIntensity 2050 = 18.2320
  ∧ ComputeCBUseCase.getTargetIntensity y = 89.3368 := by
  simp only [List.mem_cons, List.not_mem_nil, or_false, not_or] at hy
  obtain ⟨h1, h2, h3, h4, h5, h6⟩ := hy
  refine ⟨by norm_num [ComputeCBUseCase.getTargetIntensity],
    by norm_num [ComputeCBUseCase.getTargetIntensity],
    by norm_num [ComputeCBUseCase.getTargetIntensity],
    by norm_num [ComputeCBUseCase.getTargetIntensity],
    by norm_num [ComputeCBUseCase.getTargetIntensity],
    by norm_num [ComputeCBUseCase.getTargetIntensity], ?_⟩
  simp only [ComputeCBUseCase.getTargetIntensity, h1, h2, h3, h4, h5, h6,
    if_false]
  norm_num

/-- Witness for C4 at the unlisted year 2024. -/
theorem getTargetIntensity_table_witness :
    ComputeCBUseCase.getTargetIntensity 2024 = 89.3368 :=
  (getTargetIntensity_table 2024 (by decide)).2.2.2.2.2.2

/-- C7: route construction fails with a `ValidationError` if and only if
`ghgIntensity ≤ 0`, or `fuelConsumption ≤ 0`, or `year < 2024`, checked in
that order with the first failing check winning (with the source's
messages); a candidate passing all three checks yields a route carrying
exactly the given field values. -/
theorem route_create_spec (p : RouteProps) :
    (p.ghgIntensity ≤ 0 →
      Route.create p = .error (.validation "GHG intensity must be positive"))
  ∧ (0 < p.ghgIntensity → p.fuelConsumption ≤ 0 →
      Route.create p = .error (.validation "Fuel consumption must be positive"))
  ∧ (0 < p.ghgIntensity → 0 < p.fuelConsumption → p.year < 2024 →
      Route.create p = .error (.validation "Year must be 2024 or later"))
  ∧ (0 < p.ghgIntensity → 0 < p.fuelConsumption → 2024 ≤ p.year →
      Route.create p = .ok ⟨p.id, p.routeId, p.vesselType, p.fuelType, p.year,
        p.ghgIntensity, p.fuelConsumption, p.distance, p.isBaseline⟩)
  ∧ ((∃ e, Route.create p = .error e) ↔
      p.ghgIntensity ≤ 0 ∨ p.fuelConsumption ≤ 0 ∨ p.year < 2024) := by
  refine ⟨fun h1 => by simp [Route.create, h1],
    fun h1 h2 => by simp [Route.create, not_le.mpr h1, h2],
    fun h1 h2 h3 => by simp [Route.create, not_le.mpr h1, not_le.mpr h2, h3],
    fun h1 h2 h3 => by simp [Route.create, not_le.mpr h1, not_le.mpr h2,
      not_lt.mpr h3],
    ?_⟩
  constructor
  · rintro ⟨e, he⟩
    by_contra hcon
    push_neg at hcon
    obtain ⟨h1, h2, h3⟩ := hcon
    simp [Route.create, not_le.mpr h1, not_le.mpr h2, not_lt.mpr h3] at he
  · rintro (h1 | h2 | h3)
    · exact ⟨.validation "GHG intensity must be positive",
        by simp [Route.create, h1]⟩
    · rcases le_or_lt p.ghgIntensity 0 with h1 | h1
      · exact ⟨.validation "GHG intensity must be positive",
          by simp [Route.create, h1]⟩
      · exact ⟨.validation "Fuel consumption must be positive",
          by simp [Route.create, not_le.mpr h1, h2]⟩
    · rcases le_or_lt p.ghgIntensity 0 with h1 | h1
      · exact ⟨.validation "GHG intensity must be positive",
          by simp [Route.create, h1]⟩
      · rcases le_or_lt p.fuelConsumption 0 with h2 | h2
        · exact ⟨.validation "Fuel consumption must be positive",
            by simp [Route.create, not_le.mpr h1, h2]⟩
        · exact ⟨.validation "Year must be 2024 or later",
            by simp [Route.create, not_le.mpr h1, not_le.mpr h2, h3]⟩

/-- C3 (counterexample): for the route with intensity 88 and consumption
4800 in year 2025 the computed CB is exactly 263.08224 tCO2eq, which is not
approximately 262.68 as the claim states — it differs from 262.68 by more
than 0.4. -/
theorem computeCB_example_not_262_68 :
    ComputeCBUseCase.cbValueOf
        ⟨"2", "R002", .bulkCarrier, .lng, 2025, 88, 4800, 11500, false⟩ 2025
      = 263.08224
  ∧ ¬|ComputeCBUseCase.cbValueOf
        ⟨"2", "R002", .bulkCarrier, .lng, 2025, 88, 4800, 11500, false⟩ 2025
      - 262.68| < (2/5 : ℚ) := by
  constructor
  · norm_num [ComputeCBUseCase.cbValueOf, ComputeCBUseCase.getTargetIntensity,
      Route.calculateEnergyInScope]
  · norm_num [ComputeCBUseCase.cbValueOf, ComputeCBUseCase.getTargetIntensity,
      Route.calculateEnergyInScope, abs]

/-- C3 (amended): for every route resolved by its code, `computeCB` returns
CB = (targetIntensity(year) − route.ghgIntensity) × (route.fuelConsumption ×
41000) / 1,000,000; in particular for a route with intensity 88 and
consumption 4800 in year 2025 the result is (89.3368 − 88) × 196,800,000 /
1,000,000 = 263.08224 tCO2eq exactly. -/
theorem computeCB_formula (routes : List Route) (command : ComputeCBCommand)
    (st : LedgerState) (route : Route)
    (h : ComputeCBUseCase.findByRouteId routes command.routeId = some route) :
    (ComputeCBUseCase.execute routes command st).1 =
      .ok ⟨(ComputeCBUseCase.getTargetIntensity command.year - route.ghgIntensity)
            * (route.fuelConsumption * 41000) / 1000000,
          command.year, command.shipId⟩
  ∧ ComputeCBUseCase.cbValueOf
        ⟨"2", "R002", .bulkCarrier, .lng, 2025, 88, 4800, 11500, false⟩ 2025
      = (89.3368 - 88) * 196800000 / 1000000
  ∧ ((89.3368 - 88) * 196800000 / 1000000 : ℚ) = 263.08224 := by
  refine ⟨?_, ?_, by norm_num⟩
  · simp [ComputeCBUseCase.execute, h, ComputeCBUseCase.cbValueOf,
      Route.calculateEnergyInScope]
  · norm_num [ComputeCBUseCase.cbValueOf, ComputeCBUseCase.getTargetIntensity,
      Route.calculateEnergyInScope]

/-- Witness for C3 at a concrete route store: the resolved route with
intensity 88 and consumption 4800 in year 2025 yields CB 263.08224. -/
theorem computeCB_formula_witness :
    (ComputeCBUseCase.execute
        [⟨"2", "R002", .bulkCarrier, .lng, 2025, 88, 4800, 11500, false⟩]
        ⟨"R002", "S001", 2025⟩ ⟨[], [], []⟩).1 =
      .ok ⟨(ComputeCBUseCase.getTargetIntensity 2025 - 88) * (4800 * 41000)
            / 1000000, 2025, "S001"⟩ :=
  (computeCB_formula
    [⟨"2", "R002", .bulkCarrier, .lng, 2025, 88, 4800, 11500, false⟩]
    ⟨"R002", "S001", 2025⟩ ⟨[], [], []⟩
    ⟨"2", "R002", .bulkCarrier, .lng, 2025, 88, 4800, 11500, false⟩ rfl).1

-- ----- Theorems: banking ledger -----

/-- C6: `bankSurplus` fails with RecordNotFound when no ComplianceRecord
exists for (ship, year); otherwise with NonPositiveCB when the record's CB
is ≤ 0; otherwise with AmountExceedsAvailable when the amount exceeds the
record's CB; otherwise it appends exactly one BankEntry for the full
requested amount — the checks in that order, no entry on any failure; in
particular cb = 750.5 with amount 500 succeeds, amount 800 fails, and
cb = −100 fails with NonPositiveCB. -/
theorem bankSurplus_spec (command : BankSurplusCommand) (st : LedgerState) :
    ((st.findByShipAndYear command.shipId command.year = none →
      BankSurplusUseCase.execute command st =
        (.error (.plain "Compliance balance not found"), st))
  ∧ (∀ r, st.findByShipAndYear command.shipId command.year = some r →
      r.cbGco2eq ≤ 0 →
      BankSurplusUseCase.execute command st =
        (.error (.validation "Cannot bank negative or zero CB"), st))
  ∧ (∀ r, st.findByShipAndYear command.shipId command.year = some r →
      0 < r.cbGco2eq → r.cbGco2eq < command.amount →
      BankSurplusUseCase.execute command st =
        (.error (.validation "Amount exceeds available CB"), st))
  ∧ (∀ r, st.findByShipAndYear command.shipId command.year = some r →
      0 < r.cbGco2eq → command.amount ≤ r.cbGco2eq →
      BankSurplusUseCase.execute command st =
        (.ok (), { st with bankEntries := st.bankEntries ++
          [⟨command.shipId, command.year, command.amount⟩] })))
  ∧ ((BankSurplusUseCase.execute ⟨"S1", 2025, 500⟩
        ⟨[⟨"c1", "S1", 2025, 750.5, none⟩], [], []⟩).1 = .ok ()
  ∧ (BankSurplusUseCase.execute ⟨"S1", 2025, 800⟩
        ⟨[⟨"c1", "S1", 2025, 750.5, none⟩], [], []⟩).1 =
      .error (.validation "Amount exceeds available CB")
  ∧ (BankSurplusUseCase.execute ⟨"S1", 2025, 500⟩
        ⟨[⟨"c1", "S1", 2025, -100, none⟩], [], []⟩).1 =
      .error (.validation "Cannot bank negative or zero CB")) := by
  refine ⟨⟨fun h => by simp [BankSurplusUseCase.execute, h],
    fun r hr h0 => by simp [BankSurplusUseCase.execute, hr, h0],
    fun r hr h0 ha => by
      simp [BankSurplusUseCase.execute, hr, not_le.mpr h0, ha],
    fun r hr h0 ha => by
      simp [BankSurplusUseCase.execute, hr, not_le.mpr h0, not_lt.mpr ha]⟩,
    ?_, ?_, ?_⟩ <;>
  norm_num [BankSurplusUseCase.execute, LedgerState.findByShipAndYear,
    List.find?]

/-- C9: `bankSurplus` never modifies the compliance records (it only reads
them and creates a bank entry), its amount check has no lower bound and
ignores previously banked totals: whenever the record's CB is positive, any
amount ≤ CB succeeds — zero and negative amounts included — and two
successful calls of 100 against a record with CB 100 leave a cumulative
banked total of 200, exceeding the record's CB. -/
theorem bankSurplus_frame (command : BankSurplusCommand) (st : LedgerState) :
    ((BankSurplusUseCase.execute command st).2.records = st.records
  ∧ (BankSurplusUseCase.execute command st).2.appliedEntries =
      st.appliedEntries
  ∧ (∀ r, st.findByShipAndYear command.shipId command.year = some r →
      0 < r.cbGco2eq → command.amount ≤ r.cbGco2eq →
      (BankSurplusUseCase.execute command st).1 = .ok ()))
  ∧ ((BankSurplusUseCase.execute ⟨"S1", 2025, -5⟩
        ⟨[⟨"c1", "S1", 2025, 100, none⟩], [], []⟩).1 = .ok ()
  ∧ (BankSurplusUseCase.execute ⟨"S1", 2025, 0⟩
        ⟨[⟨"c1", "S1", 2025, 100, none⟩], [], []⟩).1 = .ok ()
  ∧ (BankSurplusUseCase.execute ⟨"S1", 2025, 100⟩
      (BankSurplusUseCase.execute ⟨"S1", 2025, 100⟩
        ⟨[⟨"c1", "S1", 2025, 100, none⟩], [], []⟩).2).1 = .ok ()
  ∧ ((BankSurplusUseCase.execute ⟨"S1", 2025, 100⟩
      (BankSurplusUseCase.execute ⟨"S1", 2025, 100⟩
        ⟨[⟨"c1", "S1", 2025, 100, none⟩], [], []⟩).2).2.getTotalBanked
          "S1" 2025 = 200
  ∧ (100 : ℚ) < 200)) := by
  refine ⟨⟨?_, ?_, fun r hr h0 ha => by
      simp [BankSurplusUseCase.execute, hr, not_le.mpr h0, not_lt.mpr ha]⟩,
    ?_, ?_, ?_, ?_, by norm_num⟩
  · unfold BankSurplusUseCase.execute
    rcases st.findByShipAndYear command.shipId command.year with _ | r
    · rfl
    · dsimp only
      split
      · rfl
      · split <;> rfl
  · unfold BankSurplusUseCase.execute
    rcases st.findByShipAndYear command.shipId command.year with _ | r
    · rfl
    · dsimp only
      split
      · rfl
      · split <;> rfl
  all_goals
    norm_num [BankSurplusUseCase.execute, LedgerState.findByShipAndYear,
      LedgerState.getTotalBanked, List.find?, List.filter]

/-- C10: `applyBanked` fails with NoBankedSurplus when the cumulative
unapplied banked total for (ship, year) is ≤ 0, fails with
AmountExceedsBanked when the amount exceeds that unapplied total, and
otherwise increases the applied portion by the amount, leaving the
remaining banked balance non-negative. -/
theorem applyBanked_spec (command : BankSurplusCommand) (st : LedgerState) :
    (st.unappliedBanked command.shipId command.year ≤ 0 →
      applyBanked command st = (.error (.validation "No banked surplus"), st))
  ∧ (0 < st.unappliedBanked command.shipId command.year →
      st.unappliedBanked command.shipId command.year < command.amount →
      applyBanked command st =
        (.error (.validation "Amount exceeds banked"), st))
  ∧ (0 < st.unappliedBanked command.shipId command.year →
      command.amount ≤ st.unappliedBanked command.shipId command.year →
      (applyBanked command st).1 = .ok ()
      ∧ (applyBanked command st).2.getTotalApplied command.shipId command.year
          = st.getTotalApplied command.shipId command.year + command.amount
      ∧ (applyBanked command st).2.unappliedBanked command.shipId command.year
          = st.unappliedBanked command.shipId command.year - command.amount
      ∧ 0 ≤ (applyBanked command st).2.unappliedBanked command.shipId
          command.year) := by
  refine ⟨fun h => by simp [applyBanked, h],
    fun h0 ha => by simp [applyBanked, not_le.mpr h0, ha],
    fun h0 ha => ?_⟩
  have happ : (applyBanked command st).2.getTotalApplied command.shipId
      command.year = st.getTotalApplied command.shipId command.year
        + command.amount := by
    simp [applyBanked, not_le.mpr h0, not_lt.mpr ha,
      LedgerState.getTotalApplied, List.filter_append, List.sum_append]
  have hbank : (applyBanked command st).2.getTotalBanked command.shipId
      command.year = st.getTotalBanked command.shipId command.year := by
    simp [applyBanked, not_le.mpr h0, not_lt.mpr ha, LedgerState.getTotalBanked]
  have hun : (applyBanked command st).2.unappliedBanked command.shipId
      command.year = st.unappliedBanked command.shipId command.year
        - command.amount := by
    simp only [LedgerState.unappliedBanked, happ, hbank]
    ring
  refine ⟨by simp [applyBanked, not_le.mpr h0, not_lt.mpr ha], happ, hun, ?_⟩
  rw [hun]
  linarith

-- ----- Pool allocator: proof infrastructure -----

namespace CreatePoolUseCase

/-- The sum of `cbAfter` over the working list. -/
def sumAfter (l : List PoolAllocation) : ℚ :=
  (l.map (·.cbAfter)).sum

/-- The (shipId, cbBefore) projection of the working list; the loops update
only `cbAfter`, so this projection is invariant. -/
def baseOf (l : List PoolAllocation) : List (String × ℚ) :=
  l.map fun a => (a.shipId, a.cbBefore)

theorem cbAt_of_len_le {l : List PoolAllocation} {k : ℕ} (h : l.length ≤ k) :
    cbAt l k = 0 := by
  simp [cbAt, defA, List.getD_eq_getElem?_getD, List.getElem?_eq_none, h]

theorem lt_len_of_cbAt_pos {l : List PoolAllocation} {i : ℕ}
    (h : 0 < cbAt l i) : i < l.length := by
  by_contra hc
  rw [cbAt_of_len_le (not_lt.mp hc)] at h
  exact lt_irrefl 0 h

theorem lt_len_of_cbAt_neg {l : List PoolAllocation} {j : ℕ}
    (h : cbAt l j < 0) : j < l.length := by
  by_contra hc
  rw [cbAt_of_len_le (not_lt.mp hc)] at h
  exact lt_irrefl 0 h

theorem cbAt_set_self {l : List PoolAllocation} {k : ℕ} (v : PoolAllocation)
    (h : k < l.length) : cbAt (l.set k v) k = v.cbAfter := by
  simp [cbAt, List.getD_eq_getElem?_getD, List.getElem?_set_self, h]

theorem cbAt_set_ne {l : List PoolAllocation} {i k : ℕ} (v : PoolAllocation)
    (h : i ≠ k) : cbAt (l.set i v) k = cbAt l k := by
  simp [cbAt, List.getD_eq_getElem?_getD, List.getElem?_set_ne, h]

theorem sumAfter_set {l : List PoolAllocation} {k : ℕ} (v : PoolAllocation)
    (h : k < l.length) :
    sumAfter (l.set k v) = sumAfter l - cbAt l k + v.cbAfter := by
  induction l generalizing k with
  | nil => simp at h
  | cons a as ih =>
      cases k with
      | zero => simp [sumAfter, cbAt]; ring
      | succ k =>
          have hk : k < as.length := by simpa using h
          have := ih (k := k) hk
          simp only [List.set, sumAfter, List.map_cons, List.sum_cons,
            cbAt, List.getD_cons_succ] at *
          rw [this]
          ring

theorem baseOf_set_update (l : List PoolAllocation) (k : ℕ) (x : ℚ) :
    baseOf (l.set k { l.getD k defA with cbAfter := x }) = baseOf l := by
  induction l generalizing k with
  | nil => simp [baseOf]
  | cons a as ih =>
      cases k with
      | zero => simp [baseOf, List.getD_cons_zero]
      | succ k =>
          simp only [List.getD_cons_succ, List.set, baseOf, List.map_cons]
          have := ih k
          simp only [baseOf] at this
          rw [this]

theorem length_applyTransfer (l : List PoolAllocation) (i j : ℕ) :
    (applyTransfer l i j).length = l.length := by
  simp [applyTransfer]

theorem baseOf_applyTransfer (l : List PoolAllocation) (i j : ℕ) :
    baseOf (applyTransfer l i j) = baseOf l := by
  simp only [applyTransfer]
  rw [baseOf_set_update, baseOf_set_update]

theorem cbAt_applyTransfer_i {l : List PoolAllocation} {i j : ℕ} (hij : i ≠ j)
    (hi : i < l.length) :
    cbAt (applyTransfer l i j) i = cbAt l i - min (cbAt l i) |cbAt l j| := by
  simp only [applyTransfer]
  rw [cbAt_set_ne _ (Ne.symm hij), cbAt_set_self _ hi]

theorem cbAt_applyTransfer_j {l : List PoolAllocation} {i j : ℕ} (hij : i ≠ j)
    (hj : j < l.length) :
    cbAt (applyTransfer l i j) j = cbAt l j + min (cbAt l i) |cbAt l j| := by
  simp only [applyTransfer]
  have hj' : j < (l.set i { l.getD i defA with
      cbAfter := cbAt l i - min (cbAt l i) |cbAt l j| }).length := by
    simpa using hj
  rw [cbAt_set_self _ hj']
  have : cbAt (l.set i { l.getD i defA with
      cbAfter := cbAt l i - min (cbAt l i) |cbAt l j| }) j = cbAt l j :=
    cbAt_set_ne _ hij
  simp only [cbAt] at this ⊢
  rw [this]

theorem cbAt_applyTransfer_other {l : List PoolAllocation} {i j k : ℕ}
    (hki : k ≠ i) (hkj : k ≠ j) :
    cbAt (applyTransfer l i j) k = cbAt l k := by
  simp only [applyTransfer]
  rw [cbAt_set_ne _ (Ne.symm hkj), cbAt_set_ne _ (Ne.symm hki)]

theorem sumAfter_applyTransfer {l : List PoolAllocation} {i j : ℕ}
    (hij : i ≠ j) (hi : i < l.length) (hj : j < l.length) :
    sumAfter (applyTransfer l i j) = sumAfter l := by
  simp only [applyTransfer]
  have hj' : j < (l.set i { l.getD i defA with
      cbAfter := cbAt l i - min (cbAt l i) |cbAt l j| }).length := by
    simpa using hj
  rw [sumAfter_set _ hj', sumAfter_set _ hi]
  have : cbAt (l.set i { l.getD i defA with
      cbAfter := cbAt l i - min (cbAt l i) |cbAt l j| }) j = cbAt l j :=
    cbAt_set_ne _ hij
  simp only [cbAt] at this ⊢
  rw [this]
  ring

theorem innerLoop_nil (i : ℕ) (l : List PoolAllocation) :
    innerLoop i l [] = l := rfl

theorem innerLoop_cons_neg_break {i j : ℕ} {tl : List ℕ}
    {l : List PoolAllocation} (hneg : cbAt l j < 0)
    (hz : cbAt (applyTransfer l i j) i = 0) :
    innerLoop i l (j :: tl) = applyTransfer l i j := by
  simp [innerLoop, hneg, hz]

theorem innerLoop_cons_neg_go {i j : ℕ} {tl : List ℕ}
    {l : List PoolAllocation} (hneg : cbAt l j < 0)
    (hz : cbAt (applyTransfer l i j) i ≠ 0) :
    innerLoop i l (j :: tl) = innerLoop i (applyTransfer l i j) tl := by
  simp [innerLoop, hneg, hz]

theorem innerLoop_cons_nonneg {i j : ℕ} {tl : List ℕ}
    {l : List PoolAllocation} (hneg : ¬ cbAt l j < 0) :
    innerLoop i l (j :: tl) = innerLoop i l tl := by
  simp [innerLoop, hneg]

/-- The combined invariant of the backward scan: it preserves length, the
(shipId, cbBefore) projection and the `cbAfter` sum; the scanned surplus
index stays non-negative; non-positive entries other than `i` stay
non-positive and non-negative entries stay non-negative; and if the scan
ends with index `i` still in surplus then every scanned index ends
non-negative. -/
theorem innerLoop_invariant (i : ℕ) (js : List ℕ) :
    ∀ l : List PoolAllocation, 0 < cbAt l i →
      (innerLoop i l js).length = l.length
      ∧ baseOf (innerLoop i l js) = baseOf l
      ∧ sumAfter (innerLoop i l js) = sumAfter l
      ∧ 0 ≤ cbAt (innerLoop i l js) i
      ∧ (∀ k, k ≠ i → cbAt l k ≤ 0 → cbAt (innerLoop i l js) k ≤ 0)
      ∧ (∀ k, k ≠ i → 0 ≤ cbAt l k → 0 ≤ cbAt (innerLoop i l js) k)
      ∧ (0 < cbAt (innerLoop i l js) i →
          ∀ j ∈ js, 0 ≤ cbAt (innerLoop i l js) j) := by
  induction js with
  | nil =>
      intro l hpos
      refine ⟨rfl, rfl, rfl, le_of_lt hpos, fun k _ h => h, fun k _ h => h,
        fun _ j hj => absurd hj (List.not_mem_nil j)⟩
  | cons j tl ih =>
      intro l hpos
      by_cases hneg : cbAt l j < 0
      · have hij : i ≠ j := by
          intro h
          rw [h] at hpos
          exact absurd hneg (not_lt.mpr (le_of_lt hpos))
        have hi : i < l.length := lt_len_of_cbAt_pos hpos
        have hj : j < l.length := lt_len_of_cbAt_neg hneg
        have habs : |cbAt l j| = -cbAt l j := abs_of_neg hneg
        have ht_le_i : min (cbAt l i) |cbAt l j| ≤ cbAt l i := min_le_left _ _
        have ht_le_j : min (cbAt l i) |cbAt l j| ≤ -cbAt l j := by
          rw [← habs]; exact min_le_right _ _
        have hli : cbAt (applyTransfer l i j) i
            = cbAt l i - min (cbAt l i) |cbAt l j| := cbAt_applyTransfer_i hij hi
        have hlj : cbAt (applyTransfer l i j) j
            = cbAt l j + min (cbAt l i) |cbAt l j| := cbAt_applyTransfer_j hij hj
        have hi_nonneg : 0 ≤ cbAt (applyTransfer l i j) i := by
          rw [hli]; linarith
        have hj_nonpos : cbAt (applyTransfer l i j) j ≤ 0 := by
          rw [hlj]; linarith
        have hlen : (applyTransfer l i j).length = l.length :=
          length_applyTransfer l i j
        have hbase : baseOf (applyTransfer l i j) = baseOf l :=
          baseOf_applyTransfer l i j
        have hsum : sumAfter (applyTransfer l i j) = sumAfter l :=
          sumAfter_applyTransfer hij hi hj
        by_cases hz : cbAt (applyTransfer l i j) i = 0
        · rw [innerLoop_cons_neg_break hneg hz]
          refine ⟨hlen, hbase, hsum, le_of_eq hz.symm, ?_, ?_, ?_⟩
          · intro k hki hk
            by_cases hkj : k = j
            · rw [hkj]; exact hj_nonpos
            · rw [cbAt_applyTransfer_other hki hkj]; exact hk
          · intro k hki hk
            by_cases hkj : k = j
            · rw [hkj] at hk
              exact absurd hneg (not_lt.mpr hk)
            · rw [cbAt_applyTransfer_other hki hkj]; exact hk
          · intro hcon
            rw [hz] at hcon
            exact absurd hcon (lt_irrefl 0)
        · have hpos' : 0 < cbAt (applyTransfer l i j) i :=
            lt_of_le_of_ne hi_nonneg (Ne.symm hz)
          rw [innerLoop_cons_neg_go hneg hz]
          obtain ⟨ih1, ih2, ih3, ih4, ih5, ih6, ih7⟩ :=
            ih (applyTransfer l i j) hpos'
          refine ⟨ih1.trans hlen, ih2.trans hbase, ih3.trans hsum, ih4,
            ?_, ?_, ?_⟩
          · intro k hki hk
            by_cases hkj : k = j
            · exact ih5 k hki (by rw [hkj]; exact hj_nonpos)
            · exact ih5 k hki
                (by rw [cbAt_applyTransfer_other hki hkj]; exact hk)
          · intro k hki hk
            by_cases hkj : k = j
            · rw [hkj] at hk
              exact absurd hneg (not_lt.mpr hk)
            · exact ih6 k hki
                (by rw [cbAt_applyTransfer_other hki hkj]; exact hk)
          · intro hr j' hj'
            rcases List.mem_cons.mp hj' with hj'' | hj''
            · have ht_lt : min (cbAt l i) |cbAt l j| < cbAt l i := by
                rcases lt_or_eq_of_le ht_le_i with h | h
                · exact h
                · rw [h] at hli
                  exact absurd (by rw [hli]; ring) hz
              have ht_eq : min (cbAt l i) |cbAt l j| = -cbAt l j := by
                rcases min_cases (cbAt l i) |cbAt l j| with ⟨h1, _⟩ | ⟨h1, _⟩
                · rw [h1] at ht_lt
                  exact absurd ht_lt (lt_irrefl _)
                · rw [h1, habs]
              have hzero : cbAt (applyTransfer l i j) j = 0 := by
                rw [hlj, ht_eq]; ring
              rw [hj'']
              exact ih6 j (Ne.symm hij) (le_of_eq hzero.symm)
            · exact ih7 hr j' hj''
      · rw [innerLoop_cons_nonneg hneg]
        obtain ⟨ih1, ih2, ih3, ih4, ih5, ih6, ih7⟩ := ih l hpos
        refine ⟨ih1, ih2, ih3, ih4, ih5, ih6, ?_⟩
        intro hr j' hj'
        rcases List.mem_cons.mp hj' with hj'' | hj''
        · rw [hj'']
          by_cases hji : j = i
          · rw [hji]; exact le_of_lt hr
          · exact ih6 j hji (not_lt.mp hneg)
        · exact ih7 hr j' hj''

theorem outerStep_pos {l : List PoolAllocation} {i : ℕ} (h : 0 < cbAt l i) :
    outerStep l i = innerLoop i l (List.range l.length).reverse := by
  simp [outerStep, h]

theorem outerStep_nonpos {l : List PoolAllocation} {i : ℕ}
    (h : ¬ 0 < cbAt l i) : outerStep l i = l := by
  simp [outerStep, h]

/-- The outer loop invariant: the fold preserves length, the
(shipId, cbBefore) projection and the `cbAfter` sum, and — provided every
index already processed that is still in surplus certifies that the whole
list is non-negative — the final state has the property that if any index
is in surplus then every index is non-negative. -/
theorem outer_foldl_invariant (is : List ℕ) :
    ∀ l : List PoolAllocation,
      (∀ i, i ∉ is → 0 < cbAt l i → ∀ k, 0 ≤ cbAt l k) →
      (is.foldl outerStep l).length = l.length
      ∧ baseOf (is.foldl outerStep l) = baseOf l
      ∧ sumAfter (is.foldl outerStep l) = sumAfter l
      ∧ (∀ i, 0 < cbAt (is.foldl outerStep l) i →
          ∀ k, 0 ≤ cbAt (is.foldl outerStep l) k) := by
  induction is with
  | nil =>
      intro l H
      exact ⟨rfl, rfl, rfl, fun i hpos k => H i (List.not_mem_nil i) hpos k⟩
  | cons i₀ is' ih =>
      intro l H
      rw [List.foldl_cons]
      by_cases hg : 0 < cbAt l i₀
      · rw [outerStep_pos hg]
        obtain ⟨inv1, inv2, inv3, inv4, inv5, inv6, inv7⟩ :=
          innerLoop_invariant i₀ (List.range l.length).reverse l hg
        have H' : ∀ i, i ∉ is' →
            0 < cbAt (innerLoop i₀ l (List.range l.length).reverse) i →
            ∀ k, 0 ≤ cbAt (innerLoop i₀ l (List.range l.length).reverse) k := by
          intro i hi hpos' k
          by_cases hii : i = i₀
          · rw [hii] at hpos'
            by_cases hk : k < l.length
            · exact inv7 hpos' k (by simpa using hk)
            · rw [cbAt_of_len_le (le_of_not_lt (by rw [inv1]; exact hk))]
          · by_cases hp : 0 < cbAt l i
            · have hall := H i (by simp [hii, hi]) hp
              by_cases hki : k = i₀
              · rw [hki]; exact inv4
              · exact inv6 k hki (hall k)
            · exact absurd hpos'
                (not_lt.mpr (inv5 i hii (not_lt.mp hp)))
        obtain ⟨r1, r2, r3, r4⟩ :=
          ih (innerLoop i₀ l (List.range l.length).reverse) H'
        exact ⟨r1.trans inv1, r2.trans inv2, r3.trans inv3, r4⟩
      · rw [outerStep_nonpos hg]
        refine ih l ?_
        intro i hi hpos
        by_cases hii : i = i₀
        · rw [hii] at hpos
          exact absurd hpos hg
        · exact H i (by simp [hii, hi]) hpos

theorem perm_insertDesc (m : PoolMemberInput) (l : List PoolMemberInput) :
    List.Perm (insertDesc m l) (m :: l) := by
  induction l with
  | nil => exact List.Perm.refl _
  | cons x xs ih =>
      by_cases h : x.cbBefore ≤ m.cbBefore
      · rw [insertDesc, if_pos h]
      · rw [insertDesc, if_neg h]
        exact (ih.cons x).trans (List.Perm.swap m x xs)

theorem perm_sortDesc (l : List PoolMemberInput) :
    List.Perm (sortDesc l) l := by
  induction l with
  | nil => exact List.Perm.refl _
  | cons x xs ih =>
      exact (perm_insertDesc x (sortDesc xs)).trans (ih.cons x)

theorem sorted_insertDesc (m : PoolMemberInput) (l : List PoolMemberInput)
    (h : l.Pairwise fun a b => b.cbBefore ≤ a.cbBefore) :
    (insertDesc m l).Pairwise fun a b => b.cbBefore ≤ a.cbBefore := by
  induction l with
  | nil => simp [insertDesc]
  | cons x xs ih =>
      rcases List.pairwise_cons.mp h with ⟨hx, hxs⟩
      by_cases hle : x.cbBefore ≤ m.cbBefore
      · rw [insertDesc, if_pos hle]
        refine List.pairwise_cons.mpr ⟨?_, h⟩
        intro y hy
        rcases List.mem_cons.mp hy with hy' | hy'
        · rw [hy']; exact hle
        · exact le_trans (hx y hy') hle
      · rw [insertDesc, if_neg hle]
        refine List.pairwise_cons.mpr ⟨?_, ih hxs⟩
        intro y hy
        rcases List.mem_cons.mp ((perm_insertDesc m xs).mem_iff.mp hy)
          with hy' | hy'
        · rw [hy']
          exact le_of_lt (not_le.mp hle)
        · exact hx y hy'

theorem sorted_sortDesc (l : List PoolMemberInput) :
    (sortDesc l).Pairwise fun a b => b.cbBefore ≤ a.cbBefore := by
  induction l with
  | nil => exact List.Pairwise.nil
  | cons x xs ih => exact sorted_insertDesc x (sortDesc xs) ih

theorem filter_insertDesc (v : ℚ) (m : PoolMemberInput)
    (l : List PoolMemberInput) :
    (insertDesc m l).filter (fun x => decide (x.cbBefore = v))
      = if m.cbBefore = v
        then m :: l.filter (fun x => decide (x.cbBefore = v))
        else l.filter (fun x => decide (x.cbBefore = v)) := by
  induction l with
  | nil =>
      by_cases h : m.cbBefore = v
      · simp [insertDesc, List.filter_cons, h]
      · simp [insertDesc, List.filter_cons, h]
  | cons x xs ih =>
      by_cases hle : x.cbBefore ≤ m.cbBefore
      · rw [insertDesc, if_pos hle]
        by_cases h : m.cbBefore = v
        · simp [List.filter_cons, h]
        · simp [List.filter_cons, h]
      · rw [insertDesc, if_neg hle]
        by_cases h : m.cbBefore = v
        · have hxv : ¬ x.cbBefore = v := by
            intro hx
            exact hle (le_of_eq (hx.trans h.symm))
          rw [if_pos h, List.filter_cons, List.filter_cons]
          simp only [hxv, decide_eq_true_eq, if_neg hxv]
          rw [ih, if_pos h]
          simp [hxv]
        · rw [if_neg h, List.filter_cons, List.filter_cons, ih, if_neg h]

theorem filter_sortDesc (v : ℚ) (l : List PoolMemberInput) :
    (sortDesc l).filter (fun x => decide (x.cbBefore = v))
      = l.filter (fun x => decide (x.cbBefore = v)) := by
  induction l with
  | nil => rfl
  | cons x xs ih =>
      rw [sortDesc, filter_insertDesc, List.filter_cons]
      by_cases h : x.cbBefore = v
      · rw [if_pos h, ih]
        simp [h]
      · rw [if_neg h, ih]
        simp [h]

theorem list_sum_nonpos {l : List ℚ} (h : ∀ x ∈ l, x ≤ 0) : l.sum ≤ 0 := by
  induction l with
  | nil => simp
  | cons y ys ih =>
      have hy := h y (List.mem_cons_self y ys)
      have hys := ih fun x hx => h x (List.mem_cons_of_mem y hx)
      simp only [List.sum_cons]
      linarith

theorem list_sum_neg {l : List ℚ} (h : ∀ x ∈ l, x ≤ 0) {y : ℚ}
    (hy : y ∈ l) (hneg : y < 0) : l.sum < 0 := by
  induction l with
  | nil => simp at hy
  | cons z zs ih =>
      have hz := h z (List.mem_cons_self z zs)
      have hzs : ∀ x ∈ zs, x ≤ 0 := fun x hx => h x (List.mem_cons_of_mem z hx)
      simp only [List.sum_cons]
      rcases List.mem_cons.mp hy with hy' | hy'
      · have := list_sum_nonpos hzs
        rw [← hy']
        linarith
      · have := ih hzs hy'
        linarith

theorem cbAt_eq_getElem {l : List PoolAllocation} {k : ℕ} (hk : k < l.length) :
    cbAt l k = (l.get ⟨k, hk⟩).cbAfter := by
  simp [cbAt, List.getD_eq_getElem?_getD, List.getElem?_eq_getElem hk]

theorem initAllocations_length (l : List PoolMemberInput) :
    ((sortDesc l).map fun m =>
      (⟨m.shipId, m.cbBefore, m.cbBefore⟩ : PoolAllocation)).length
      = l.length := by
  rw [List.length_map]
  exact (perm_sortDesc l).length_eq

theorem sumAfter_initAllocations (l : List PoolMemberInput) :
    sumAfter ((sortDesc l).map fun m =>
      (⟨m.shipId, m.cbBefore, m.cbBefore⟩ : PoolAllocation))
      = (l.map (·.cbBefore)).sum := by
  rw [sumAfter, List.map_map]
  exact (((perm_sortDesc l).map (·.cbBefore)).sum_eq)

theorem greedyAllocate_eq_foldl (members : List PoolMemberInput) :
    greedyAllocate members =
      (List.range ((sortDesc members).map fun m =>
        (⟨m.shipId, m.cbBefore, m.cbBefore⟩ : PoolAllocation)).length).foldl
        outerStep
        ((sortDesc members).map fun m =>
          (⟨m.shipId, m.cbBefore, m.cbBefore⟩ : PoolAllocation)) := rfl

theorem outer_assumption_vacuous (l : List PoolAllocation) :
    ∀ i, i ∉ List.range l.length → 0 < cbAt l i → ∀ k, 0 ≤ cbAt l k := by
  intro i hi hpos
  rw [cbAt_of_len_le (le_of_not_lt fun h => hi (List.mem_range.mpr h))] at hpos
  exact absurd hpos (lt_irrefl 0)

/-- Conservation through the whole allocator: the `cbAfter` sum of the
output equals the `cbBefore` sum of the input. -/
theorem sumAfter_greedyAllocate (members : List PoolMemberInput) :
    sumAfter (greedyAllocate members) = (members.map (·.cbBefore)).sum := by
  rw [greedyAllocate_eq_foldl]
  obtain ⟨_, _, r3, _⟩ := outer_foldl_invariant
    (List.range ((sortDesc members).map fun m =>
      (⟨m.shipId, m.cbBefore, m.cbBefore⟩ : PoolAllocation)).length)
    ((sortDesc members).map fun m =>
      (⟨m.shipId, m.cbBefore, m.cbBefore⟩ : PoolAllocation))
    (outer_assumption_vacuous _)
  rw [r3]
  exact sumAfter_initAllocations members

/-- The (shipId, cbBefore) projection of the allocator output is that of the
sorted input copy. -/
theorem baseOf_greedyAllocate (members : List PoolMemberInput) :
    baseOf (greedyAllocate members)
      = (sortDesc members).map fun m => (m.shipId, m.cbBefore) := by
  rw [greedyAllocate_eq_foldl]
  obtain ⟨_, r2, _, _⟩ := outer_foldl_invariant
    (List.range ((sortDesc members).map fun m =>
      (⟨m.shipId, m.cbBefore, m.cbBefore⟩ : PoolAllocation)).length)
    ((sortDesc members).map fun m =>
      (⟨m.shipId, m.cbBefore, m.cbBefore⟩ : PoolAllocation))
    (outer_assumption_vacuous _)
  rw [r2, baseOf, List.map_map]
  rfl

/-- When the pool total is non-negative, every member's final `cbAfter` is
non-negative: each deficit is fully covered. -/
theorem greedyAllocate_nonneg (members : List PoolMemberInput)
    (h : 0 ≤ (members.map (·.cbBefore)).sum) :
    ∀ a ∈ greedyAllocate members, 0 ≤ a.cbAfter := by
  obtain ⟨_, _, _, r4⟩ := outer_foldl_invariant
    (List.range ((sortDesc members).map fun m =>
      (⟨m.shipId, m.cbBefore, m.cbBefore⟩ : PoolAllocation)).length)
    ((sortDesc members).map fun m =>
      (⟨m.shipId, m.cbBefore, m.cbBefore⟩ : PoolAllocation))
    (outer_assumption_vacuous _)
  rw [← greedyAllocate_eq_foldl] at r4
  by_contra hcon
  push_neg at hcon
  obtain ⟨a, haMem, haNeg⟩ := hcon
  obtain ⟨k, hak⟩ := List.mem_iff_get.mp haMem
  have hcbk : cbAt (greedyAllocate members) ↑k = a.cbAfter := by
    rw [cbAt_eq_getElem k.isLt]
    simp only [Fin.eta]
    rw [hak]
  have hnotpos : ∀ i, cbAt (greedyAllocate members) i ≤ 0 := by
    intro i
    by_contra hip
    have := r4 i (lt_of_not_le hip) ↑k
    rw [hcbk] at this
    linarith
  have hallnp : ∀ x ∈ (greedyAllocate members).map (·.cbAfter), x ≤ 0 := by
    intro x hx
    obtain ⟨b, hb, hbx⟩ := List.mem_map.mp hx
    obtain ⟨kb, hbk⟩ := List.mem_iff_get.mp hb
    rw [← hbx]
    have hkb : cbAt (greedyAllocate members) ↑kb = b.cbAfter := by
      rw [cbAt_eq_getElem kb.isLt]
      simp only [Fin.eta]
      rw [hbk]
    rw [← hkb]
    exact hnotpos ↑kb
  have hmemmap : a.cbAfter ∈ (greedyAllocate members).map (·.cbAfter) :=
    List.mem_map.mpr ⟨a, haMem, rfl⟩
  have hlt := list_sum_neg hallnp hmemmap haNeg
  have := sumAfter_greedyAllocate members
  rw [sumAfter] at this
  linarith

/-- If every allocation exits non-negative, `validatePoolingRules` passes:
neither rule can fire. -/
theorem validatePoolingRules_ok (original : List PoolMemberInput)
    (allocs : List PoolAllocation) (h : ∀ a ∈ allocs, 0 ≤ a.cbAfter) :
    validatePoolingRules original allocs = .ok () := by
  induction allocs with
  | nil => rfl
  | cons a rest ih =>
      have ha : 0 ≤ a.cbAfter := h a (List.mem_cons_self a rest)
      have h1 : ¬(originalCbBefore original a.shipId < 0
          ∧ a.cbAfter < originalCbBefore original a.shipId) := by
        rintro ⟨hb, hc⟩
        linarith
      have h2 : ¬(originalCbBefore original a.shipId > 0 ∧ a.cbAfter < 0) := by
        rintro ⟨hb, hc⟩
        linarith
      simp only [validatePoolingRules, if_neg h1, if_neg h2]
      exact ih fun b hb => h b (List.mem_cons_of_mem a hb)

end CreatePoolUseCase

namespace CreatePoolUseCase

theorem foldl_add_eq_sum (l : List PoolMemberInput) :
    ∀ init : ℚ, l.foldl (fun sum m => sum + m.cbBefore) init
      = init + (l.map (·.cbBefore)).sum := by
  induction l with
  | nil => intro init; simp
  | cons x xs ih =>
      intro init
      rw [List.foldl_cons, ih, List.map_cons, List.sum_cons]
      ring

theorem execute_lt_two {command : CreatePoolCommand} {st : PoolState}
    (h : command.members.length < 2) :
    execute command st =
      (.error (.validation "Pool must have at least 2 members"), st) := by
  simp [execute, h]

theorem execute_neg_total {command : CreatePoolCommand} {st : PoolState}
    (h2 : 2 ≤ command.members.length)
    (hneg : (command.members.map (·.cbBefore)).sum < 0) :
    execute command st =
      (.error (.validation "Pool total CB must be non-negative"), st) := by
  have hfold := foldl_add_eq_sum command.members 0
  rw [zero_add] at hfold
  simp [execute, not_lt.mpr h2, hfold, hneg]

theorem execute_accepts {command : CreatePoolCommand} {st : PoolState}
    (h2 : 2 ≤ command.members.length)
    (hnn : 0 ≤ (command.members.map (·.cbBefore)).sum) :
    execute command st =
      (.ok ("P" ++ toString (st.pools.length + 1),
            greedyAllocate command.members),
       ⟨st.pools ++ [⟨"P" ++ toString (st.pools.length + 1), command.year,
            greedyAllocate command.members⟩]⟩) := by
  have hfold := foldl_add_eq_sum command.members 0
  rw [zero_add] at hfold
  have hval := validatePoolingRules_ok command.members
    (greedyAllocate command.members) (greedyAllocate_nonneg command.members hnn)
  simp [execute, not_lt.mpr h2, hfold, not_lt.mpr hnn, hval, PoolState.create]

end CreatePoolUseCase

-- ----- Theorems: pool allocator -----

/-- C1: for every member list accepted by `CreatePoolUseCase.execute`
(length at least 2, non-negative `cbBefore` sum), the returned allocation
list satisfies `sum(cbAfter) = sum(cbBefore)` exactly. -/
theorem pool_conservation (command : CreatePoolCommand) (st : PoolState)
    (result : String × List PoolAllocation) (st' : PoolState)
    (h : CreatePoolUseCase.execute command st = (.ok result, st')) :
    (result.2.map (·.cbAfter)).sum = (command.members.map (·.cbBefore)).sum := by
  by_cases h2 : command.members.length < 2
  · rw [CreatePoolUseCase.execute_lt_two h2] at h
    simp at h
  · by_cases hneg : (command.members.map (·.cbBefore)).sum < 0
    · rw [CreatePoolUseCase.execute_neg_total (not_lt.mp h2) hneg] at h
      simp at h
    · rw [CreatePoolUseCase.execute_accepts (not_lt.mp h2)
        (not_lt.mp hneg)] at h
      have hres : result =
          ("P" ++ toString (st.pools.length + 1),
           CreatePoolUseCase.greedyAllocate command.members) := by
        have := congrArg Prod.fst h
        simpa using this.symm
      rw [hres]
      exact CreatePoolUseCase.sumAfter_greedyAllocate command.members

/-- Witness for C1: the pool `{S001: 1250.5, S002: −800}` is accepted and
its allocation sums are conserved. -/
theorem pool_conservation_witness :
    ((CreatePoolUseCase.greedyAllocate
        [⟨"S001", 1250.5⟩, ⟨"S002", -800⟩]).map (·.cbAfter)).sum
      = (([(⟨"S001", (1250.5 : ℚ)⟩ : PoolMemberInput),
          ⟨"S002", -800⟩]).map (·.cbBefore)).sum :=
  pool_conservation ⟨2025, [⟨"S001", 1250.5⟩, ⟨"S002", -800⟩]⟩ ⟨[]⟩
    ("P1", CreatePoolUseCase.greedyAllocate [⟨"S001", 1250.5⟩, ⟨"S002", -800⟩])
    ⟨[⟨"P1", 2025,
      CreatePoolUseCase.greedyAllocate [⟨"S001", 1250.5⟩, ⟨"S002", -800⟩]⟩]⟩
    (by rw [CreatePoolUseCase.execute_accepts (by norm_num) (by norm_num)]
        rfl)

/-- C2: for every member list accepted by `CreatePoolUseCase.execute`, the
greedy allocation gives every deficit member `cbAfter ≥ cbBefore` and every
surplus member `cbAfter ≥ 0` (in fact every member exits non-negative), so
the MemberExitsWorse and MemberExitsNegative branches of
`validatePoolingRules` are unreachable on allocator output. -/
theorem pool_fairness (members : List PoolMemberInput)
    (h2 : 2 ≤ members.length)
    (h0 : 0 ≤ (members.map (·.cbBefore)).sum) :
    (∀ a ∈ CreatePoolUseCase.greedyAllocate members,
        (a.cbBefore < 0 → a.cbBefore ≤ a.cbAfter)
        ∧ (0 < a.cbBefore → 0 ≤ a.cbAfter))
    ∧ CreatePoolUseCase.validatePoolingRules members
        (CreatePoolUseCase.greedyAllocate members) = .ok () := by
  have hnn := CreatePoolUseCase.greedyAllocate_nonneg members h0
  refine ⟨fun a ha => ⟨fun hb => le_trans (le_of_lt hb) (hnn a ha),
    fun _ => hnn a ha⟩, ?_⟩
  exact CreatePoolUseCase.validatePoolingRules_ok members _ hnn

/-- Witness for C2: the accepted pool `{S001: 1250.5, S002: −800}` passes
the pooling rules. -/
theorem pool_fairness_witness :
    CreatePoolUseCase.validatePoolingRules
      [⟨"S001", 1250.5⟩, ⟨"S002", -800⟩]
      (CreatePoolUseCase.greedyAllocate [⟨"S001", 1250.5⟩, ⟨"S002", -800⟩])
      = .ok () :=
  (pool_fairness [⟨"S001", 1250.5⟩, ⟨"S002", -800⟩] (by norm_num)
    (by norm_num)).2

/-- C5: `CreatePoolUseCase.execute` fails with PoolMinimumMembers iff the
member list has fewer than 2 members; otherwise it fails with
PoolNegativeTotal iff the `cbBefore` sum is strictly negative — the length
check first; a sum of exactly zero is accepted; and on either failure the
pool store is untouched. -/
theorem pool_preconditions (command : CreatePoolCommand) (st : PoolState) :
    ((CreatePoolUseCase.execute command st).1 =
        .error (.validation "Pool must have at least 2 members")
      ↔ command.members.length < 2)
  ∧ (2 ≤ command.members.length →
      ((CreatePoolUseCase.execute command st).1 =
          .error (.validation "Pool total CB must be non-negative")
        ↔ (command.members.map (·.cbBefore)).sum < 0))
  ∧ (command.members.length < 2 →
      CreatePoolUseCase.execute command st =
        (.error (.validation "Pool must have at least 2 members"), st))
  ∧ (2 ≤ command.members.length →
      (command.members.map (·.cbBefore)).sum < 0 →
      CreatePoolUseCase.execute command st =
        (.error (.validation "Pool total CB must be non-negative"), st))
  ∧ (2 ≤ command.members.length →
      (command.members.map (·.cbBefore)).sum = 0 →
      ∃ r st', CreatePoolUseCase.execute command st = (.ok r, st')) := by
  refine ⟨⟨?_, fun h => by rw [CreatePoolUseCase.execute_lt_two h]⟩,
    fun h2 => ⟨?_, fun h => by
      rw [CreatePoolUseCase.execute_neg_total h2 h]⟩,
    fun h => CreatePoolUseCase.execute_lt_two h,
    fun h2 h => CreatePoolUseCase.execute_neg_total h2 h,
    fun h2 h0 => ⟨_, _, CreatePoolUseCase.execute_accepts h2 (le_of_eq h0.symm)⟩⟩
  · intro h
    by_contra hc
    rcases lt_or_le (command.members.map (·.cbBefore)).sum 0 with hneg | hnn
    · rw [CreatePoolUseCase.execute_neg_total (not_lt.mp hc) hneg] at h
      simp at h
    · rw [CreatePoolUseCase.execute_accepts (not_lt.mp hc) hnn] at h
      simp at h
  · intro h
    by_contra hc
    rcases lt_or_le (command.members.map (·.cbBefore)).sum 0 with hneg | hnn
    · exact hc hneg
    · rw [CreatePoolUseCase.execute_accepts h2 hnn] at h
      simp at h

/-- C8: the allocator is deterministic — the same input run twice yields the
same output — and the sorted working copy is the stable descending
reordering of the input: members tied on `cbBefore` keep their input
relative order (the filter at each key value is unchanged), while the copy
is sorted by `cbBefore` descending and is a permutation of the input. -/
theorem pool_determinism_stability (members : List PoolMemberInput) :
    CreatePoolUseCase.greedyAllocate members
      = CreatePoolUseCase.greedyAllocate members
  ∧ (∀ v : ℚ, (CreatePoolUseCase.sortDesc members).filter
        (fun m => decide (m.cbBefore = v))
      = members.filter (fun m => decide (m.cbBefore = v)))
  ∧ (CreatePoolUseCase.sortDesc members).Pairwise
      (fun a b => b.cbBefore ≤ a.cbBefore)
  ∧ List.Perm (CreatePoolUseCase.sortDesc members) members :=
  ⟨rfl, fun v => CreatePoolUseCase.filter_sortDesc v members,
    CreatePoolUseCase.sorted_sortDesc members,
    CreatePoolUseCase.perm_sortDesc members⟩
